import Mathlib

/-!
Verification of the gitrec synchronization and enrichment pipeline
(src/command.py) against its natural-language specification.

The Python source is shallowly embedded: the pure per-item logic of each
workflow becomes a Lean function over explicit inputs, external
collaborators (the Gorse catalog client, the GitHub client, the OpenAI
summarizer and embedder, pickledb) are modelled as function parameters or
scripted outcomes, and catalog mutations become explicit effect lists.
-/

namespace GitRec

/-- Maximum comment length. Defined in the missing utils module; the value
1000 is taken from the source comment at src/command.py line 148
("description longer than 1000 characters"). All theorems below are
parametric in this value. -/
def MAX_COMMENT_LENGTH : Nat := 1000

/-- The value the Labels field of a catalog item may hold: either the raw
flat tag list (pre-upgrade state) or the structured enrichment record with
an embedding and the registry topics (post-upgrade state). Embedding
vectors are modelled as integer lists; no claim computes with their
entries. -/
inductive LabelsVal where
  | raw (tags : List String)
  | upgraded (embedding : List Int) (topics : List String)
  deriving DecidableEq, Repr

/-- A catalog item as stored in Gorse. Option models Python None
(Gorse may return null Labels, and Comment may be null). -/
structure CatalogItem where
  itemId : String
  timestamp : String
  labels : Option LabelsVal
  categories : Option (List String)
  comment : Option String
  deriving DecidableEq, Repr

/-- A source-registry record for one repository, as read through the
GitHub client. languages maps language name to byte weight
(repo.get_languages()); topics is repo.get_topics(); readme is the decoded
readme text. -/
structure Repo where
  full_name : String
  description : Option String
  stargazers_count : Nat
  language : Option String
  languages : List (String × Nat)
  topics : List String
  updated_at : String
  readme : String
  deriving DecidableEq, Repr

/-- Python str.lower modelled characterwise (the inputs of interest are
ASCII language names and topic tags). -/
def pyLower (s : String) : String :=
  ⟨s.data.map Char.toLower⟩

/-- The id normalization of search_and_upsert line 66: Python
full_name.replace with the single-character arguments slash and colon,
modelled characterwise, followed by lowercasing. -/
def normalizeId (s : String) : String :=
  pyLower ⟨s.data.map (fun c => if c = '/' then ':' else c)⟩

/-- Python substring membership for strings: needle in haystack. -/
def pySubIn [BEq α] : List α → List α → Bool
  | n, [] => n.isEmpty
  | n, c :: rest => n.isPrefixOf (c :: rest) || pySubIn n rest

/-- Python `m in s` on strings is a contiguous-substring test. -/
def pyStrIn (needle haystack : String) : Bool :=
  pySubIn needle.data haystack.data

/-- Label computation in search_and_upsert (src/command.py lines 61 to 63):
start from the topic tags; if the language is present and the ORIGINAL
language string (not its lowercased form) is not already among the tags,
append the LOWERCASED language. -/
def computeLabels (topics : List String) (language : Option String) : List String :=
  match language with
  | none => topics
  | some lang => if lang ∈ topics then topics else topics ++ [pyLower lang]

/-- The scan underlying pyMaxKey: keep the current best key unless a later
value is strictly greater (first-encountered-maximum tie break). -/
def pyMaxKeyGo (bk : String) (bv : Nat) : List (String × Nat) → String
  | [] => bk
  | (k, v) :: rest => if bv < v then pyMaxKeyGo k v rest else pyMaxKeyGo bk bv rest

/-- Python max over a language-to-byte-weight mapping keyed by the value
(max(languages, key=languages.get)): the first key attaining the maximal
value, None-free only on a nonempty mapping. -/
def pyMaxKey : List (String × Nat) → Option String
  | [] => none
  | (k, v) :: rest => some (pyMaxKeyGo k v rest)

/-- The category list computed in upgrade_items (src/command.py lines 156
to 159): None when the language breakdown is empty, else the singleton of
the lowercased dominant language. -/
def computeCategories (languages : List (String × Nat)) : Option (List String) :=
  (pyMaxKey languages).map (fun k => [pyLower k])

/-! ## Workflow A: bulk upsert (search_and_upsert, src/command.py lines 44 to 76) -/

/-- Observable actions of the bulk-upsert loop: a catalog insert
(gorse_client.insert_item) tagged with the discovery key it came from, and
a checkpoint add on the repo namespace (db.dadd). -/
inductive AEvent where
  | insertItem (key : String) (item : CatalogItem)
  | addKey (key : String)
  deriving DecidableEq, Repr

/-- The catalog item built for a candidate repo in search_and_upsert
(src/command.py lines 60 to 74): id is the full name with slash replaced
by colon, lowercased; labels are computeLabels; categories come from the
generate_categories collaborator (a parameter, defined in the missing
utils module); the comment is the description truncated to
MAX_COMMENT_LENGTH when longer. -/
def mkItem (genCats : List String → List String) (repo : Repo) : CatalogItem :=
  let labels := computeLabels repo.topics repo.language
  { itemId := normalizeId repo.full_name
    timestamp := repo.updated_at
    labels := some (.raw labels)
    categories := some (genCats labels)
    comment :=
      match repo.description with
      | none => none
      | some d => some (if d.length > MAX_COMMENT_LENGTH then d.take MAX_COMMENT_LENGTH else d) }

/-- One iteration of the candidate loop in search_and_upsert
(src/command.py lines 54 to 76). State: the repo checkpoint namespace
(set of seen discovery keys) and the events emitted so far. A candidate
whose full name is already checkpointed is skipped; otherwise the item is
inserted and then the key is added to the checkpoint. -/
def searchStep (genCats : List String → List String)
    (st : List String × List AEvent) (repo : Repo) : List String × List AEvent :=
  if repo.full_name ∈ st.1 then st
  else (st.1 ++ [repo.full_name],
        st.2 ++ [.insertItem repo.full_name (mkItem genCats repo),
                 .addKey repo.full_name])

/-- The candidate loop of search_and_upsert run over a list of candidates,
starting from checkpoint contents ckpt0. A full run of upsert_repos is
this fold over the concatenation of the discovery results of every topic
and every retry attempt, with the checkpoint threaded through; the fold
over the concatenation covers every such composition. -/
def search_and_upsert (genCats : List String → List String)
    (ckpt0 : List String) (repos : List Repo) : List String × List AEvent :=
  repos.foldl (searchStep genCats) (ckpt0, [])

/-- Number of checkpoint adds for key k in an event list. -/
def countAdd (k : String) (evs : List AEvent) : Nat :=
  evs.countP (fun e => match e with | .addKey k2 => k2 == k | _ => false)

/-- Number of catalog inserts for discovery key k in an event list. -/
def countIns (k : String) (evs : List AEvent) : Nat :=
  evs.countP (fun e => match e with | .insertItem k2 _ => k2 == k | _ => false)

/-! ## Workflow A orchestration: per-topic retry loop
(upsert_repos, src/command.py lines 98 to 111) -/

/-- Outcome of one attempt of search_and_upsert on a topic: it returns
normally, raises RateLimitExceededException, or raises any other
exception. -/
inductive AttemptOutcome where
  | ok
  | rateLimited
  | otherError
  deriving DecidableEq, Repr

/-- Observable actions of the per-topic retry loop: a sleep of a given
number of seconds and the checkpoint add on the topic namespace. -/
inductive TopicEvent where
  | sleep (seconds : Nat)
  | checkpointTopic (topic : String)
  deriving DecidableEq, Repr

/-- The while-True retry loop of upsert_repos (src/command.py lines 100 to
111) for one topic, driven by the scripted outcomes of successive
attempts: on success the topic is checkpointed and the loop breaks; on
RateLimitExceededException it sleeps 1800 seconds and retries; on any
other exception it sleeps 60 seconds and retries. An empty script means
the loop is still retrying (no event is emitted for attempts not taken). -/
def processTopic (topic : String) : List AttemptOutcome → List TopicEvent
  | [] => []
  | .ok :: _ => [.checkpointTopic topic]
  | .rateLimited :: rest => .sleep 1800 :: processTopic topic rest
  | .otherError :: rest => .sleep 60 :: processTopic topic rest

/-! ## Workflow B: upgrade_items (src/command.py lines 114 to 193) -/

/-- Result of github_client.get_repo for one item:
a SourceRecord, an UnknownObjectException (not found), or a
GithubException carrying an HTTP status and a data message. Python
truthiness of e.status is modelled by status equal to 0 being falsy. -/
inductive FetchResult where
  | ok (repo : Repo)
  | unknownObject
  | githubError (status : Nat) (message : String)
  deriving DecidableEq, Repr

/-- The exceptions the enrichment try-block of upgrade_items catches
(src/command.py lines 165 to 180): BadRequestError, InternalServerError,
ConnectionError, UnknownObjectException (the repo vanished mid-flight, for
example while fetching the readme), AssertionError. -/
inductive EnrichErr where
  | badRequest
  | internalServer
  | connection
  | unknownObject
  | assertionError
  deriving DecidableEq, Repr

/-- Observable actions of workflows B and C against the catalog and the
log. updateItem mirrors the Gorse update_item keyword signature: an outer
none means the keyword was not passed (the field is left untouched), an
inner none (for categories and comment) means Python None was passed. -/
inductive Effect where
  | deleteItem (id : String)
  | updateItem (id : String)
      (categories : Option (Option (List String)))
      (labels : Option LabelsVal)
      (timestamp : Option String)
      (comment : Option (Option String))
  | logDelete (s : String)
  | logFail (s : String)
  | logUpdate (s : String)
  | logQwen (s : String)
  deriving DecidableEq, Repr

/-- The enrichment computation of upgrade_items (src/command.py lines 160
to 164): take the source description verbatim when present, otherwise
summarize the readme through the tldr collaborator (logging the summary
with a QWEN line); then embed the resulting description. tldrF and embedF
model the fallible summarization and embedding collaborators (tldr and
embedding live in the missing utils module; get_readme failures are folded
into tldrF). Returns the description used, its embedding, and the log
effects emitted inside the block. -/
def runEnrichment (tldrF : String → Except EnrichErr String)
    (embedF : String → Except EnrichErr (List Int)) (repo : Repo) :
    Except EnrichErr (String × List Int × List Effect) := do
  let pre : String × List Effect ←
    match repo.description with
    | some d => Except.ok (d, ([] : List Effect))
    | none => do
        let s ← tldrF repo.readme
        Except.ok (s, [Effect.logQwen s])
  let emb ← embedF pre.1
  Except.ok (pre.1, emb, pre.2)

/-- Whether the source description disqualifies the item (src/command.py
line 149): present and strictly longer than MAX_COMMENT_LENGTH. -/
def longDescription (repo : Repo) : Bool :=
  match repo.description with
  | some d => d.length > MAX_COMMENT_LENGTH
  | none => false

/-- The per-item body of upgrade_items (src/command.py lines 122 to 193).
Items whose Labels value is not a flat list (already upgraded, or null)
are skipped. For a raw item: a not-found fetch deletes it; a
GithubException deletes it when the status is 451, or when the status is
truthy and the message is a Python substring of
"Repository access blocked" (the source tests membership in a string, not
in a tuple), and otherwise only logs a failure; then items with fewer than
100 stars or an over-long source description are deleted; then enrichment
runs, a vanished repo deletes the item, any other enrichment error only
logs a failure, and on success the item is updated with the dominant
language as its category, the enrichment record as labels, the registry
timestamp and the untruncated source description. -/
def upgradeItemStep (tldrF : String → Except EnrichErr String)
    (embedF : String → Except EnrichErr (List Int))
    (fetch : FetchResult) (item : CatalogItem) : List Effect :=
  match item.labels with
  | some (.raw _) =>
    match fetch with
    | .unknownObject => [.deleteItem item.itemId, .logDelete item.itemId]
    | .githubError status msg =>
        if status == 451 then
          [.deleteItem item.itemId, .logDelete item.itemId]
        else if status != 0 && pyStrIn msg "Repository access blocked" then
          [.deleteItem item.itemId, .logDelete item.itemId]
        else
          [.logFail item.itemId]
    | .ok repo =>
        if repo.stargazers_count < 100 then
          [.deleteItem item.itemId, .logDelete repo.full_name]
        else if longDescription repo then
          [.deleteItem item.itemId, .logDelete repo.full_name]
        else
          match runEnrichment tldrF embedF repo with
          | .error .unknownObject => [.deleteItem item.itemId, .logDelete item.itemId]
          | .error _ => [.logFail repo.full_name]
          | .ok (_, emb, logs) =>
              logs ++ [.updateItem item.itemId
                         (some (computeCategories repo.languages))
                         (some (.upgraded emb repo.topics))
                         (some repo.updated_at)
                         (some repo.description),
                       .logUpdate repo.full_name]
  | _ => []

/-- Number of deleteItem effects for catalog id i. -/
def countDel (i : String) (evs : List Effect) : Nat :=
  evs.countP (fun e => match e with | .deleteItem j => j == i | _ => false)

/-- Number of updateItem effects for catalog id i. -/
def countUpd (i : String) (evs : List Effect) : Nat :=
  evs.countP (fun e => match e with | .updateItem j _ _ _ _ => j == i | _ => false)

/-! ## Workflow C: upgrade_embedding (src/command.py lines 196 to 210) -/

/-- The Python runtime error relevant to the workflow C per-item body:
a TypeError, raised by len(None) when the Comment is null and by
subscript-assignment on a value that is not a dict when Labels is still a
flat list (or null). -/
inductive PyError where
  | typeError
  deriving DecidableEq, Repr

/-- The per-item body of upgrade_embedding (src/command.py lines 204 to
210). A null Comment makes len raise a TypeError; an empty comment skips
the item; a non-empty comment requires Labels to be the upgraded record
(otherwise the embedding assignment raises a TypeError) and then updates
only the labels keyword, with the embedding recomputed from the comment
and the topics kept. The embedding collaborator is modelled as a total
function embedF. -/
def upgradeEmbeddingStep (embedF : String → List Int) (item : CatalogItem) :
    Except PyError (List Effect) :=
  match item.comment with
  | none => .error .typeError
  | some c =>
      if c.length > 0 then
        match item.labels with
        | some (.upgraded _ topics) =>
            .ok [.updateItem item.itemId none
                   (some (.upgraded (embedF c) topics)) none none]
        | _ => .error .typeError
      else
        .ok []

/-- The item loop of upgrade_embedding over one page: the per-item bodies
run in order and the first uncaught TypeError aborts the whole run (there
is no try-except around the loop). -/
def upgradeEmbeddingRun (embedF : String → List Int) :
    List CatalogItem → Except PyError (List Effect)
  | [] => .ok []
  | i :: rest => do
      let e ← upgradeEmbeddingStep embedF i
      let es ← upgradeEmbeddingRun embedF rest
      Except.ok (e ++ es)

/-! ## Catalog pagination (get_items loops) -/

/-- A scripted pagination of the catalog: the successive answers of
gorse_client.get_items, each a page of items together with the cursor
returned for the next call; the terminal answer carries the empty
cursor. -/
def yieldedItems (pages : List (List CatalogItem × String)) : List CatalogItem :=
  (pages.map Prod.fst).flatten

/-- The items the paging loop shared by upgrade_items and
upgrade_embedding actually processes (src/command.py lines 117 to 122 and
199 to 204): fetch a page, break as soon as the RETURNED cursor is empty,
and only otherwise run the per-item loop on the page just fetched. -/
def pagedItemsBC : List (List CatalogItem × String) → List CatalogItem
  | [] => []
  | (items, c) :: rest => if c = "" then [] else items ++ pagedItemsBC rest

/-- The items the paging loop of upsert_repos processes (src/command.py
lines 86 to 94): run the per-item loop on the fetched page first, and only
then break when the returned cursor is empty. -/
def pagedItemsA : List (List CatalogItem × String) → List CatalogItem
  | [] => []
  | (items, c) :: rest => if c = "" then items else items ++ pagedItemsA rest

/-! ## Concrete fixtures used by closed theorems and witnesses -/

/-- A catalog item in raw (pre-upgrade) state. -/
def rawItem : CatalogItem :=
  { itemId := "a:b", timestamp := "t", labels := some (.raw ["rust", "cli"])
    categories := some ["rust"], comment := some "hello" }

/-- A summarizer that always fails with BadRequestError. -/
def tldrBad : String → Except EnrichErr String := fun _ => .error .badRequest

/-- An embedder that always fails with BadRequestError. -/
def embedBad : String → Except EnrichErr (List Int) := fun _ => .error .badRequest

/-! ## Claims -/

/-- C1: the spec claims workflows B and C process every item the
pagination yields, including the items on the final page (the page
returned with an empty nextCursor). The code breaks out of the paging loop
before the per-item loop whenever the returned cursor is empty, so the
final page is dropped: on a catalog answering one single page of one item
with cursor empty, the loop shared by upgrade_items and upgrade_embedding
processes nothing, although the item was yielded and although the
upsert_repos paging loop in the same file does process it. -/
theorem C1_final_page_skipped :
    pagedItemsBC [([rawItem], "")] = [] ∧
    yieldedItems [([rawItem], "")] = [rawItem] ∧
    pagedItemsA [([rawItem], "")] = [rawItem] :=
  ⟨rfl, rfl, rfl⟩

/-- C7: the spec claims the lowercased primary language is appended only
when its lowercased form is not already among the tags, hence no
duplicate. The code tests membership of the ORIGINAL language string but
appends the LOWERCASED one: with tags rust and language Rust the test
fails to fire and the result holds rust twice, refuting the no-duplicate
consequence at this input. -/
theorem C7_duplicate_label_on_case_mismatch :
    computeLabels ["rust"] (some "Rust") = ["rust", "rust"] ∧
    pyLower "Rust" ∈ ["rust"] ∧
    ¬ (["rust", "rust"] : List String).Nodup := by
  have h : pyLower "Rust" = "rust" := rfl
  refine ⟨?_, ?_, by simp⟩
  · rw [computeLabels, if_neg (by decide), h]
    rfl
  · rw [h]
    simp

/-- C9: frame property of the workflow C per-item body. For an item with a
non-empty comment whose labels are the upgraded record, the body issues
exactly one update that passes only the labels keyword (categories,
timestamp and comment are not passed, so they keep their prior values),
with the embedding recomputed from the existing comment and the topics of
the label structure kept unchanged; it raises nothing and deletes
nothing. -/
theorem C9_embedding_refresh_frame (embedF : String → List Int)
    (item : CatalogItem) (c : String) (emb0 : List Int) (topics : List String)
    (hc : item.comment = some c) (hne : 0 < c.length)
    (hl : item.labels = some (.upgraded emb0 topics)) :
    upgradeEmbeddingStep embedF item =
      .ok [.updateItem item.itemId none
             (some (.upgraded (embedF c) topics)) none none] := by
  rw [upgradeEmbeddingStep, hc]
  simp only [hl, if_pos hne]

/-- C9 witness: the frame theorem applied to a concrete upgraded item with
comment hello. -/
theorem C9_embedding_refresh_frame_witness :
    upgradeEmbeddingStep (fun s => [(s.length : Int)])
      { itemId := "a:b", timestamp := "t"
        labels := some (.upgraded [7] ["web"])
        categories := some ["rust"], comment := some "hello" } =
      .ok [.updateItem "a:b" none (some (.upgraded [(5 : Int)] ["web"])) none none] := by
  have h := C9_embedding_refresh_frame (fun s => [(s.length : Int)])
    { itemId := "a:b", timestamp := "t"
      labels := some (.upgraded [7] ["web"])
      categories := some ["rust"], comment := some "hello" }
    "hello" [7] ["web"] rfl (by decide) rfl
  rw [h]
  rfl

/-- C10 counterexample: the claim says any paged item whose labels are
still the raw flat list makes the per-item body raise a type error. An
item with raw labels and an EMPTY string comment is skipped silently: the
body returns no effects and raises nothing, because the length guard fails
before the labels value is ever touched. -/
theorem C10_raw_labels_no_error_counterexample :
    upgradeEmbeddingStep (fun _ => [])
      { itemId := "a:b", timestamp := "t", labels := some (.raw ["rust"])
        categories := some ["rust"], comment := some "" } = .ok [] ∧
    ({ itemId := "a:b", timestamp := "t", labels := some (.raw ["rust"])
       categories := some ["rust"], comment := some "" } : CatalogItem).labels =
      some (.raw ["rust"]) :=
  ⟨rfl, rfl⟩

/-- C10 amended: the workflow C per-item body raises an uncaught TypeError
when the comment is null (len of None), and when the comment is non-empty
while the labels are not the upgraded record (null labels or a raw flat
list make the embedding subscript assignment fail); an item whose comment
is the empty string is skipped without error whatever its labels. The
error aborts the run: the item loop propagates it. -/
theorem C10_amended_type_error_precondition (embedF : String → List Int)
    (item : CatalogItem) :
    (item.comment = none → upgradeEmbeddingStep embedF item = .error .typeError) ∧
    (∀ c, item.comment = some c → 0 < c.length →
      (item.labels = none ∨ ∃ tags, item.labels = some (.raw tags)) →
      upgradeEmbeddingStep embedF item = .error .typeError) ∧
    (∀ c, item.comment = some c → c.length = 0 →
      upgradeEmbeddingStep embedF item = .ok []) ∧
    (∀ rest, upgradeEmbeddingStep embedF item = .error .typeError →
      upgradeEmbeddingRun embedF (item :: rest) = .error .typeError) := by
  refine ⟨?_, ?_, ?_, ?_⟩
  · intro h
    rw [upgradeEmbeddingStep, h]
  · intro c hc hpos hlab
    rw [upgradeEmbeddingStep, hc]
    rcases hlab with h | ⟨tags, h⟩ <;> simp only [h, if_pos hpos]
  · intro c hc hzero
    rw [upgradeEmbeddingStep, hc]
    simp [hzero]
  · intro rest herr
    rw [upgradeEmbeddingRun, herr]
    rfl

/-- C10 witness: the amended theorem applied to a concrete null-comment
item, showing the body raises the type error and the run over a singleton
page aborts with it. -/
theorem C10_amended_type_error_precondition_witness :
    upgradeEmbeddingStep (fun _ => [])
      { itemId := "a:b", timestamp := "t", labels := some (.raw ["rust"])
        categories := some ["rust"], comment := none } = .error .typeError ∧
    upgradeEmbeddingRun (fun _ => [])
      [{ itemId := "a:b", timestamp := "t", labels := some (.raw ["rust"])
         categories := some ["rust"], comment := none }] = .error .typeError := by
  have h := C10_amended_type_error_precondition (fun _ => [])
    { itemId := "a:b", timestamp := "t", labels := some (.raw ["rust"])
      categories := some ["rust"], comment := none }
  exact ⟨h.1 rfl, h.2.2.2 [] (h.1 rfl)⟩

/-- C4: deletion correctness of the workflow B per-item body. For a raw
item whose registry fetch reports not-found, or returns a record with
fewer than 100 stars, or one whose source description is strictly longer
than MAX_COMMENT_LENGTH, the body emits exactly one deleteItem for that
item and no updateItem for it. -/
theorem C4_deletion_correctness (tldrF : String → Except EnrichErr String)
    (embedF : String → Except EnrichErr (List Int)) (fetch : FetchResult)
    (item : CatalogItem) (tags : List String)
    (hraw : item.labels = some (.raw tags))
    (hcond : fetch = .unknownObject ∨
      ∃ repo, fetch = .ok repo ∧
        (repo.stargazers_count < 100 ∨
         ∃ d, repo.description = some d ∧ MAX_COMMENT_LENGTH < d.length)) :
    countDel item.itemId (upgradeItemStep tldrF embedF fetch item) = 1 ∧
    countUpd item.itemId (upgradeItemStep tldrF embedF fetch item) = 0 := by
  rcases hcond with h | ⟨repo, hf, hcase⟩
  · simp only [upgradeItemStep, hraw, h]
    simp [countDel, countUpd, List.countP_cons]
  · simp only [upgradeItemStep, hraw, hf]
    by_cases hs : repo.stargazers_count < 100
    · simp only [if_pos hs]
      simp [countDel, countUpd, List.countP_cons]
    · rcases hcase with hs2 | ⟨d, hd, hlen⟩
      · exact absurd hs2 hs
      · have hld : longDescription repo = true := by
          simp only [longDescription, hd]
          simpa using hlen
        simp only [if_neg hs, hld, if_pos]
        simp [countDel, countUpd, List.countP_cons]

/-- C4 witness: the deletion-correctness theorem applied to the concrete
raw fixture item whose fetch reports not-found. -/
theorem C4_deletion_correctness_witness :
    countDel rawItem.itemId (upgradeItemStep tldrBad embedBad .unknownObject rawItem) = 1 ∧
    countUpd rawItem.itemId (upgradeItemStep tldrBad embedBad .unknownObject rawItem) = 0 :=
  C4_deletion_correctness tldrBad embedBad .unknownObject rawItem
    ["rust", "cli"] rfl (Or.inl rfl)

/-- C5: enrichment-failure disposition of the workflow B per-item body.
For a raw item whose fetch succeeded, with enough stars and an acceptable
description, an enrichment failure with bad-input, upstream-unavailable or
network-error yields exactly one failure log and no catalog mutation,
while an enrichment failure caused by the item vanishing mid-flight
(UnknownObjectException) deletes the catalog item instead. -/
theorem C5_enrichment_failure_disposition (tldrF : String → Except EnrichErr String)
    (embedF : String → Except EnrichErr (List Int)) (fetch : FetchResult)
    (item : CatalogItem) (tags : List String) (repo : Repo) (err : EnrichErr)
    (hraw : item.labels = some (.raw tags)) (hf : fetch = .ok repo)
    (hstars : ¬ repo.stargazers_count < 100) (hdesc : longDescription repo = false)
    (herr : runEnrichment tldrF embedF repo = .error err) :
    (err = .badRequest ∨ err = .internalServer ∨ err = .connection →
      upgradeItemStep tldrF embedF fetch item = [.logFail repo.full_name]) ∧
    (err = .unknownObject →
      upgradeItemStep tldrF embedF fetch item =
        [.deleteItem item.itemId, .logDelete item.itemId]) := by
  simp only [upgradeItemStep, hraw, hf, if_neg hstars, hdesc, Bool.false_eq_true,
    if_false, herr]
  constructor
  · rintro (h | h | h) <;> subst h <;> rfl
  · rintro h
    subst h
    rfl

/-- C5 witness: the disposition theorem applied to a concrete repo whose
embedder fails with BadRequestError. -/
theorem C5_enrichment_failure_disposition_witness :
    upgradeItemStep tldrBad embedBad
      (.ok { full_name := "a/b", description := some "short", stargazers_count := 200
             language := some "Rust", languages := [("Rust", 10)], topics := ["cli"]
             updated_at := "2020-01-01T00:00:00Z", readme := "readme" }) rawItem =
      [.logFail "a/b"] := by
  have h := C5_enrichment_failure_disposition tldrBad embedBad
    (.ok { full_name := "a/b", description := some "short", stargazers_count := 200
           language := some "Rust", languages := [("Rust", 10)], topics := ["cli"]
           updated_at := "2020-01-01T00:00:00Z", readme := "readme" }) rawItem
    ["rust", "cli"]
    { full_name := "a/b", description := some "short", stargazers_count := 200
      language := some "Rust", languages := [("Rust", 10)], topics := ["cli"]
      updated_at := "2020-01-01T00:00:00Z", readme := "readme" }
    .badRequest rfl rfl (by decide) (by decide) rfl
  exact h.1 (Or.inl rfl)

/-- C6 counterexample: the claim says only HTTP 451, exact message
"Repository access blocked", and not-found lead to deletion, every other
registry error only logging a failure. The source tests membership in a
STRING (a tuple needs a trailing comma), which is a substring test: a
GithubException with status 403 and message "blocked", which is neither
451 nor the exact message, still deletes the item instead of only logging
the failure. -/
theorem C6_substring_match_counterexample :
    upgradeItemStep tldrBad embedBad (.githubError 403 "blocked") rawItem =
      [.deleteItem "a:b", .logDelete "a:b"] ∧
    (403 : Nat) ≠ 451 ∧ ("blocked" : String) ≠ "Repository access blocked" := by
  refine ⟨rfl, by decide, by decide⟩

/-- C6 amended: registry-error classification of the workflow B per-item
body for a raw item. A not-found fetch deletes the item; a GithubException
deletes it exactly when the status is 451, or the status is truthy
(nonzero) and the message is a contiguous Python substring of
"Repository access blocked"; every other GithubException yields exactly
one failure log, with no deleteItem and no updateItem. -/
theorem C6_amended_registry_error_classification
    (tldrF : String → Except EnrichErr String)
    (embedF : String → Except EnrichErr (List Int))
    (item : CatalogItem) (tags : List String)
    (hraw : item.labels = some (.raw tags)) :
    (upgradeItemStep tldrF embedF .unknownObject item =
      [.deleteItem item.itemId, .logDelete item.itemId]) ∧
    (∀ status msg,
      (status = 451 ∨ (status ≠ 0 ∧ pyStrIn msg "Repository access blocked" = true) →
        upgradeItemStep tldrF embedF (.githubError status msg) item =
          [.deleteItem item.itemId, .logDelete item.itemId]) ∧
      (status ≠ 451 → (status = 0 ∨ pyStrIn msg "Repository access blocked" = false) →
        upgradeItemStep tldrF embedF (.githubError status msg) item =
          [.logFail item.itemId])) := by
  refine ⟨by simp only [upgradeItemStep, hraw], ?_⟩
  intro status msg
  constructor
  · rintro (h | ⟨hnz, hsub⟩)
    · subst h
      simp only [upgradeItemStep, hraw]
      rfl
    · simp only [upgradeItemStep, hraw]
      by_cases h451 : status == 451
      · simp only [if_pos h451]
      · simp only [if_neg h451]
        have : (status != 0 && pyStrIn msg "Repository access blocked") = true := by
          simp [hsub, hnz]
        simp [this]
  · intro h451 hother
    simp only [upgradeItemStep, hraw]
    have hb : (status == 451) = false := by
      simpa using h451
    have hc : (status != 0 && pyStrIn msg "Repository access blocked") = false := by
      rcases hother with h | h <;> simp [h]
    simp only [hb, hc, Bool.false_eq_true, if_false]

/-- C6 amended witness: the classification theorem applied to the concrete
raw fixture item, covering a deleting case (status 451) and a
log-only case (status 404 with an unrelated message). -/
theorem C6_amended_registry_error_classification_witness :
    upgradeItemStep tldrBad embedBad (.githubError 451 "gone") rawItem =
      [.deleteItem "a:b", .logDelete "a:b"] ∧
    upgradeItemStep tldrBad embedBad (.githubError 404 "Not Found") rawItem =
      [.logFail "a:b"] := by
  have h := C6_amended_registry_error_classification tldrBad embedBad rawItem
    ["rust", "cli"] rfl
  exact ⟨(h.2 451 "gone").1 (Or.inl rfl),
         (h.2 404 "Not Found").2 (by decide) (Or.inr (by decide))⟩

/-- The scan of pyMaxKeyGo returns either the seed key or a key of the
list, and its value bounds the seed value and every value in the list. -/
theorem pyMaxKeyGo_spec (l : List (String × Nat)) :
    ∀ (bk : String) (bv : Nat),
      ∃ w, bv ≤ w ∧ (∀ p ∈ l, p.2 ≤ w) ∧
        ((pyMaxKeyGo bk bv l = bk ∧ w = bv) ∨ (pyMaxKeyGo bk bv l, w) ∈ l) := by
  induction l with
  | nil =>
      intro bk bv
      exact ⟨bv, le_refl bv, by simp, Or.inl ⟨rfl, rfl⟩⟩
  | cons p rest ih =>
      intro bk bv
      obtain ⟨k, v⟩ := p
      by_cases h : bv < v
      · obtain ⟨w, hvw, hall, hloc⟩ := ih k v
        refine ⟨w, le_of_lt (lt_of_lt_of_le h hvw), ?_, ?_⟩
        · intro q hq
          rcases List.mem_cons.mp hq with hq | hq
          · rw [hq]
            exact hvw
          · exact hall q hq
        · rw [pyMaxKeyGo, if_pos h]
          rcases hloc with ⟨h1, h2⟩ | hmem
          · exact Or.inr (by rw [h1, h2]; exact List.mem_cons_self _ _)
          · exact Or.inr (List.mem_cons_of_mem _ hmem)
      · obtain ⟨w, hvw, hall, hloc⟩ := ih bk bv
        refine ⟨w, hvw, ?_, ?_⟩
        · intro q hq
          rcases List.mem_cons.mp hq with hq | hq
          · rw [hq]
            exact le_trans (le_of_not_lt h) hvw
          · exact hall q hq
        · rw [pyMaxKeyGo, if_neg h]
          rcases hloc with ⟨h1, h2⟩ | hmem
          · exact Or.inl ⟨h1, h2⟩
          · exact Or.inr (List.mem_cons_of_mem _ hmem)

/-- On a nonempty mapping, pyMaxKey returns a key carrying the largest
byte weight (Python max keyed by the mapping values). -/
theorem pyMaxKey_spec (l : List (String × Nat)) (hne : l ≠ []) :
    ∃ lang w, pyMaxKey l = some lang ∧ (lang, w) ∈ l ∧ ∀ p ∈ l, p.2 ≤ w := by
  match l, hne with
  | (k, v) :: rest, _ =>
      obtain ⟨w, hvw, hall, hloc⟩ := pyMaxKeyGo_spec rest k v
      refine ⟨pyMaxKeyGo k v rest, w, rfl, ?_, ?_⟩
      · rcases hloc with ⟨h1, h2⟩ | hmem
        · rw [h1, h2]
          exact List.mem_cons_self _ _
        · exact List.mem_cons_of_mem _ hmem
      · intro q hq
        rcases List.mem_cons.mp hq with hq | hq
        · rw [hq]
          exact hvw
        · exact hall q hq

/-- C8: successful-upgrade postcondition of the workflow B per-item body.
For a raw item whose fetch succeeded with enough stars, an acceptable
description, a nonempty language breakdown and successful enrichment, the
body updates the item with categories the singleton of the lowercased
dominant language (a language of maximal byte weight), labels the
enrichment record of the computed embedding and the registry topics,
timestamp the registry updatedAt and comment the untruncated source
description, after the enrichment logs. -/
theorem C8_upgrade_postcondition (tldrF : String → Except EnrichErr String)
    (embedF : String → Except EnrichErr (List Int)) (fetch : FetchResult)
    (item : CatalogItem) (tags : List String) (repo : Repo)
    (desc : String) (emb : List Int) (logs : List Effect)
    (hraw : item.labels = some (.raw tags)) (hf : fetch = .ok repo)
    (hstars : ¬ repo.stargazers_count < 100)
    (hdesc : longDescription repo = false)
    (hlang : repo.languages ≠ [])
    (hok : runEnrichment tldrF embedF repo = .ok (desc, emb, logs)) :
    ∃ lang w, pyMaxKey repo.languages = some lang ∧
      (lang, w) ∈ repo.languages ∧ (∀ p ∈ repo.languages, p.2 ≤ w) ∧
      upgradeItemStep tldrF embedF fetch item =
        logs ++ [.updateItem item.itemId (some (some [pyLower lang]))
                   (some (.upgraded emb repo.topics)) (some repo.updated_at)
                   (some repo.description),
                 .logUpdate repo.full_name] := by
  obtain ⟨lang, w, hmk, hmem, hmax⟩ := pyMaxKey_spec repo.languages hlang
  refine ⟨lang, w, hmk, hmem, hmax, ?_⟩
  simp only [upgradeItemStep, hraw, hf, if_neg hstars, hdesc, Bool.false_eq_true,
    if_false, hok, computeCategories, hmk]
  rfl

/-- A source record used by witnesses of the successful-upgrade branch. -/
def repoOk : Repo :=
  { full_name := "a/b", description := some "hi", stargazers_count := 200
    language := some "Rust", languages := [("Rust", 10), ("C", 5)]
    topics := ["cli"], updated_at := "2020-01-01T00:00:00Z", readme := "r" }

/-- An embedder that always returns the vector 1 2. -/
def embedOk12 : String → Except EnrichErr (List Int) := fun _ => .ok [1, 2]

/-- C8 witness: the postcondition theorem applied to the concrete fixture,
with the dominant language Rust lowercased into the category list. -/
theorem C8_upgrade_postcondition_witness :
    upgradeItemStep tldrBad embedOk12 (.ok repoOk) rawItem =
      [.updateItem "a:b" (some (some ["rust"]))
         (some (.upgraded [1, 2] ["cli"])) (some "2020-01-01T00:00:00Z")
         (some (some "hi")),
       .logUpdate "a/b"] := by
  obtain ⟨lang, w, hmk, _, _, heq⟩ :=
    C8_upgrade_postcondition tldrBad embedOk12 (.ok repoOk) rawItem
      ["rust", "cli"] repoOk "hi" [1, 2] [] rfl rfl (by decide) (by decide)
      (by decide) rfl
  have hrfl : pyMaxKey repoOk.languages = some "Rust" := rfl
  rw [hrfl] at hmk
  have hlang : lang = "Rust" := (Option.some.inj hmk).symm
  rw [heq, hlang]
  rfl

/-- countAdd distributes over event-list concatenation. -/
theorem countAdd_append (k : String) (a b : List AEvent) :
    countAdd k (a ++ b) = countAdd k a + countAdd k b := by
  simp [countAdd, List.countP_append]

/-- countIns distributes over event-list concatenation. -/
theorem countIns_append (k : String) (a b : List AEvent) :
    countIns k (a ++ b) = countIns k a + countIns k b := by
  simp [countIns, List.countP_append]

/-- The insert-add pair emitted for key k counts one add for k. -/
theorem countAdd_pair_self (k : String) (it : CatalogItem) :
    countAdd k [.insertItem k it, .addKey k] = 1 := by
  simp [countAdd, List.countP_cons, List.countP_nil]

/-- The insert-add pair emitted for key k counts one insert for k. -/
theorem countIns_pair_self (k : String) (it : CatalogItem) :
    countIns k [.insertItem k it, .addKey k] = 1 := by
  simp [countIns, List.countP_cons, List.countP_nil]

/-- The insert-add pair emitted for another key counts no add for k. -/
theorem countAdd_pair_other (k fn : String) (it : CatalogItem)
    (h : (fn == k) = false) :
    countAdd k [.insertItem fn it, .addKey fn] = 0 := by
  simp [countAdd, List.countP_cons, List.countP_nil, h]

/-- The insert-add pair emitted for another key counts no insert for k. -/
theorem countIns_pair_other (k fn : String) (it : CatalogItem)
    (h : (fn == k) = false) :
    countIns k [.insertItem fn it, .addKey fn] = 0 := by
  simp [countIns, List.countP_cons, List.countP_nil, h]

/-- A key already in the repo checkpoint namespace is never touched again
by the candidate loop: no further insert and no further checkpoint add for
it, whatever candidates follow. -/
theorem searchLoop_checkpointed (genCats : List String → List String) (k : String) :
    ∀ (repos : List Repo) (ckpt : List String) (evs : List AEvent), k ∈ ckpt →
      countAdd k (repos.foldl (searchStep genCats) (ckpt, evs)).2 = countAdd k evs ∧
      countIns k (repos.foldl (searchStep genCats) (ckpt, evs)).2 = countIns k evs := by
  intro repos
  induction repos with
  | nil => intro ckpt evs _; exact ⟨rfl, rfl⟩
  | cons r rest ih =>
      intro ckpt evs hk
      by_cases hmem : r.full_name ∈ ckpt
      · simpa [searchStep, hmem] using ih ckpt evs hk
      · have hne : r.full_name ≠ k := fun h => hmem (h ▸ hk)
        have hb : (r.full_name == k) = false := by
          simpa using hne
        have h2 := ih (ckpt ++ [r.full_name])
          (evs ++ [.insertItem r.full_name (mkItem genCats r), .addKey r.full_name])
          (List.mem_append_left _ hk)
        simp only [List.foldl_cons, searchStep, if_neg hmem] at *
        rw [h2.1, h2.2, countAdd_append, countIns_append,
          countAdd_pair_other k r.full_name _ hb,
          countIns_pair_other k r.full_name _ hb]
        exact ⟨rfl, rfl⟩

/-- The candidate loop adds a key at most once, pairs every insert with
its add, and keeps added keys in the checkpoint, from any well-formed
starting state. -/
theorem searchLoop_bounded (genCats : List String → List String) (k : String) :
    ∀ (repos : List Repo) (ckpt : List String) (evs : List AEvent),
      countIns k evs = countAdd k evs →
      (1 ≤ countAdd k evs → k ∈ ckpt) →
      countAdd k evs ≤ 1 →
      countAdd k (repos.foldl (searchStep genCats) (ckpt, evs)).2 ≤ 1 ∧
      countIns k (repos.foldl (searchStep genCats) (ckpt, evs)).2 =
        countAdd k (repos.foldl (searchStep genCats) (ckpt, evs)).2 := by
  intro repos
  induction repos with
  | nil => intro ckpt evs heq _ hle; exact ⟨hle, heq⟩
  | cons r rest ih =>
      intro ckpt evs heq hin hle
      by_cases hmem : r.full_name ∈ ckpt
      · simpa [searchStep, hmem] using ih ckpt evs heq hin hle
      · simp only [List.foldl_cons, searchStep, if_neg hmem]
        by_cases hk : r.full_name = k
        · subst hk
          have hzero : countAdd r.full_name evs = 0 := by
            by_contra hnz
            exact hmem (hin (Nat.one_le_iff_ne_zero.mpr hnz))
          have hzeroi : countIns r.full_name evs = 0 := heq.trans hzero
          have ha : countAdd r.full_name
              (evs ++ [.insertItem r.full_name (mkItem genCats r),
                       .addKey r.full_name]) = 1 := by
            rw [countAdd_append, hzero, countAdd_pair_self]
          have hi : countIns r.full_name
              (evs ++ [.insertItem r.full_name (mkItem genCats r),
                       .addKey r.full_name]) = 1 := by
            rw [countIns_append, hzeroi, countIns_pair_self]
          refine ih _ _ (hi.trans ha.symm) ?_ (le_of_eq ha)
          intro _
          exact List.mem_append_right _ (List.mem_cons_self _ _)
        · have hb : (r.full_name == k) = false := by
            simpa using hk
          have ha : countAdd k
              (evs ++ [.insertItem r.full_name (mkItem genCats r),
                       .addKey r.full_name]) = countAdd k evs := by
            rw [countAdd_append, countAdd_pair_other k r.full_name _ hb]
            exact Nat.add_zero _
          have hi : countIns k
              (evs ++ [.insertItem r.full_name (mkItem genCats r),
                       .addKey r.full_name]) = countIns k evs := by
            rw [countIns_append, countIns_pair_other k r.full_name _ hb]
            exact Nat.add_zero _
          refine ih _ _ (by rw [ha, hi, heq]) ?_ (by rw [ha]; exact hle)
          intro h1
          rw [ha] at h1
          exact List.mem_append_left _ (hin h1)

/-- C2: dedup invariant of the bulk-upsert loop. Over any sequence of
candidates (the concatenation of every topic and retry attempt of a full
run, with the checkpoint threaded through), each discovery key is added to
the repo checkpoint namespace at most once, every catalog insert for a key
is paired with its checkpoint add, and a key already checkpointed before
processing receives neither an insert nor an add. -/
theorem C2_dedup_invariant (genCats : List String → List String)
    (ckpt0 : List String) (repos : List Repo) (k : String) :
    countAdd k (search_and_upsert genCats ckpt0 repos).2 ≤ 1 ∧
    countIns k (search_and_upsert genCats ckpt0 repos).2 =
      countAdd k (search_and_upsert genCats ckpt0 repos).2 ∧
    (k ∈ ckpt0 →
      countAdd k (search_and_upsert genCats ckpt0 repos).2 = 0 ∧
      countIns k (search_and_upsert genCats ckpt0 repos).2 = 0) := by
  have h0 : countAdd k ([] : List AEvent) = 0 := rfl
  have h0i : countIns k ([] : List AEvent) = 0 := rfl
  have hB := searchLoop_bounded genCats k repos ckpt0 []
    (h0i.trans h0.symm)
    (by intro h; rw [h0] at h; exact absurd h (by omega))
    (by rw [h0]; omega)
  refine ⟨hB.1, hB.2, ?_⟩
  intro hk
  have hA := searchLoop_checkpointed genCats k repos ckpt0 [] hk
  exact ⟨hA.1.trans h0, hA.2.trans h0i⟩

/-- C2 witness: the dedup invariant applied to a run started with the key
a/b already checkpointed, over two candidates both named a/b. -/
theorem C2_dedup_invariant_witness :
    countAdd "a/b" (search_and_upsert id ["a/b"] [repoOk, repoOk]).2 ≤ 1 ∧
    countIns "a/b" (search_and_upsert id ["a/b"] [repoOk, repoOk]).2 =
      countAdd "a/b" (search_and_upsert id ["a/b"] [repoOk, repoOk]).2 ∧
    ("a/b" ∈ ["a/b"] →
      countAdd "a/b" (search_and_upsert id ["a/b"] [repoOk, repoOk]).2 = 0 ∧
      countIns "a/b" (search_and_upsert id ["a/b"] [repoOk, repoOk]).2 = 0) :=
  C2_dedup_invariant id ["a/b"] [repoOk, repoOk] "a/b"

/-- The cooldown the retry loop of upsert_repos applies after a failed
attempt: 1800 seconds after RateLimitExceededException, 60 seconds after
any other exception. -/
def retryCooldown : AttemptOutcome → Nat
  | .rateLimited => 1800
  | _ => 60

/-- C3: retry policy of the per-topic loop of upsert_repos. A run whose
attempts fail a finite number of times before succeeding sleeps the long
cooldown of 1800 seconds after each rate-limited failure and the short
cooldown of 60 seconds after any other failure, retrying the same topic,
and checkpoints the topic exactly at the end, after the succeeding pass;
moreover under any script of outcomes the topic is checkpointed only if
some attempt raised no exception. -/
theorem C3_retry_policy (topic : String) (failures : List AttemptOutcome)
    (hf : ∀ o ∈ failures, o ≠ .ok) :
    processTopic topic (failures ++ [.ok]) =
      failures.map (fun o => .sleep (retryCooldown o)) ++ [.checkpointTopic topic] ∧
    ∀ script : List AttemptOutcome,
      .checkpointTopic topic ∈ processTopic topic script → .ok ∈ script := by
  constructor
  · revert hf
    induction failures with
    | nil => intro _; rfl
    | cons o rest ih =>
        intro hf
        have hrest : ∀ x ∈ rest, x ≠ .ok :=
          fun x hx => hf x (List.mem_cons_of_mem _ hx)
        cases o with
        | ok => exact absurd rfl (hf .ok (List.mem_cons_self _ _))
        | rateLimited =>
            have hstep : processTopic topic
                ((AttemptOutcome.rateLimited :: rest) ++ [.ok]) =
              .sleep 1800 :: processTopic topic (rest ++ [.ok]) := rfl
            rw [hstep, ih hrest]
            rfl
        | otherError =>
            have hstep : processTopic topic
                ((AttemptOutcome.otherError :: rest) ++ [.ok]) =
              .sleep 60 :: processTopic topic (rest ++ [.ok]) := rfl
            rw [hstep, ih hrest]
            rfl
  · intro script
    induction script with
    | nil => intro h; exact absurd h (by simp [processTopic])
    | cons o rest ih =>
        cases o with
        | ok => exact fun _ => List.mem_cons_self _ _
        | rateLimited =>
            intro h
            rw [processTopic] at h
            rcases List.mem_cons.mp h with h | h
            · exact absurd h (by simp)
            · exact List.mem_cons_of_mem _ (ih h)
        | otherError =>
            intro h
            rw [processTopic] at h
            rcases List.mem_cons.mp h with h | h
            · exact absurd h (by simp)
            · exact List.mem_cons_of_mem _ (ih h)

/-- C3 witness: the retry-policy theorem applied to a topic that is rate
limited once, fails once more with another exception, then succeeds. -/
theorem C3_retry_policy_witness :
    processTopic "rust" ([.rateLimited, .otherError] ++ [.ok]) =
      [.sleep 1800, .sleep 60, .checkpointTopic "rust"] := by
  rw [(C3_retry_policy "rust" [.rateLimited, .otherError] (by decide)).1]
  rfl

end GitRec
